import Mathlib

/-!
Shallow embedding of the ingress-to-gateway conversion core
(pkg/converter/converter.go, pkg/validator/validator.go, pkg/analyzer),
together with theorems settling the frozen claims about the
natural-language specification of the repository.

Go slices are Lean lists, Go maps used as lookup tables are functions
into `Option`, Go `(T, error)` returns are a `GoResult` value that also
has an explicit constructor for a runtime panic (nil-pointer
dereference), since the converter dereferences `path.Backend.Service`
without a nil check.  Go's `map` iteration order is nondeterministic;
the one place the converter iterates a map to *emit output*
(`convertPerPattern`) is therefore modelled with an explicit iteration
order parameter, quantified over all permutations of the key set.
-/

/-- Result of a Go call: a value, an `error`, or a runtime panic. -/
inductive GoResult (α : Type) where
  | ok (val : α)
  | err (msg : String)
  | panic (msg : String)
deriving DecidableEq, Repr

/-- The message of the Go runtime's nil-pointer panic. -/
def nilDeref : String := "runtime error: invalid memory address or nil pointer dereference"

/-- Whether a Go call returned successfully. -/
def GoResult.isOk {α : Type} : GoResult α → Bool
  | .ok _ => true
  | _ => false

/-- Length of the returned list of a successful call, 0 otherwise. -/
def okLength {α : Type} : GoResult (List α) → Nat
  | .ok l => l.length
  | _ => 0

/-! ## Data model: the source (Ingress) side, fields the converter reads -/

/-- networkingv1.ServiceBackendPort (only `Number` is read). -/
structure ServiceBackendPort where
  number : Int
deriving DecidableEq, Repr

/-- networkingv1.IngressServiceBackend. -/
structure IngressServiceBackend where
  name : String
  port : ServiceBackendPort
deriving DecidableEq, Repr

/-- networkingv1.IngressBackend; `Service` is a nullable pointer in Go. -/
structure IngressBackend where
  service : Option IngressServiceBackend
deriving DecidableEq, Repr

/-- networkingv1.PathType values. -/
inductive IngressPathType where
  | prefixType
  | exact
  | implementationSpecific
deriving DecidableEq, Repr

/-- networkingv1.HTTPIngressPath; `PathType` is a nullable pointer in Go. -/
structure HTTPIngressPath where
  path : String
  pathType : Option IngressPathType
  backend : IngressBackend
deriving DecidableEq, Repr

/-- networkingv1.HTTPIngressRuleValue. -/
structure HTTPIngressRuleValue where
  paths : List HTTPIngressPath
deriving DecidableEq, Repr

/-- networkingv1.IngressRule; `Host` defaults to `""`, `HTTP` is nullable. -/
structure IngressRule where
  host : String
  http : Option HTTPIngressRuleValue
deriving DecidableEq, Repr

/-- networkingv1.IngressSpec, fields the converter reads. -/
structure IngressSpec where
  ingressClassName : Option String
  rules : List IngressRule
  defaultBackend : Option IngressBackend
deriving DecidableEq, Repr

/-- An annotation map; Go `map[string]string` indexing with `, exists`. -/
def AnnMap : Type := String → Option String

/-- networkingv1.Ingress, fields the converter reads. -/
structure Ingress where
  name : String
  ns : String
  labels : List (String × String)
  anns : AnnMap
  spec : IngressSpec

/-! ## Data model: the target (HTTPRoute) side, fields the converter writes -/

/-- gatewayv1 path match type (`PathMatchPathPrefix` / `PathMatchExact`). -/
inductive PathMatchType where
  | prefixMatch
  | exactMatch
deriving DecidableEq, Repr

/-- gatewayv1.HTTPPathMatch (both fields set through pointers in Go). -/
structure HTTPPathMatch where
  ty : PathMatchType
  value : String
deriving DecidableEq, Repr

/-- gatewayv1.HTTPRouteMatch, the `Path` part the converter populates. -/
structure HTTPRouteMatch where
  path : Option HTTPPathMatch
deriving DecidableEq, Repr

/-- gatewayv1.HTTPBackendRef fields the converter populates. -/
structure HTTPBackendRef where
  name : String
  port : Int
  weight : Int
deriving DecidableEq, Repr

/-- gatewayv1.HTTPRouteTimeouts; both fields are nullable duration strings. -/
structure HTTPRouteTimeouts where
  request : Option String
  backendRequest : Option String
deriving DecidableEq, Repr

/-- gatewayv1.HTTPRouteFilter variants the converter emits, with the
payload fields it sets. -/
inductive HTTPRouteFilter where
  | urlRewrite (replaceFullPath : String)
  | requestRedirect (hostname : String) (statusCode : Int)
deriving DecidableEq, Repr

/-- gatewayv1.HTTPRouteRule fields the converter populates. -/
structure HTTPRouteRule where
  ruleMatches : List HTTPRouteMatch
  backendRefs : List HTTPBackendRef
  filters : List HTTPRouteFilter
  timeouts : Option HTTPRouteTimeouts
deriving DecidableEq, Repr

/-- gatewayv1.HTTPRoute fields the converter populates; parent refs are
reduced to the referenced gateway names (the only field set). -/
structure HTTPRoute where
  name : String
  ns : String
  labels : List (String × String)
  hostnames : List String
  parentRefs : List String
  rules : List HTTPRouteRule
deriving DecidableEq, Repr

/-- converter.Options fields used by the conversion path. -/
structure Options where
  splitMode : String
  gatewayName : String
  gatewayClass : String
deriving Repr

/-! ## Small Go library functions used by the converter -/

/-- Decimal value of a digit list (most significant first). -/
def digitsToNat : List Char → Nat → Nat
  | [], acc => acc
  | c :: cs, acc => digitsToNat cs (acc * 10 + (c.toNat - '0'.toNat))

/-- strconv.Atoi: optional sign, then one or more digits; overflow of the
64-bit range is not modelled (no claim depends on it). -/
def atoi (s : String) : Option Int :=
  match s.data with
  | [] => none
  | '+' :: rest =>
      if rest ≠ [] ∧ rest.all Char.isDigit then some (digitsToNat rest 0) else none
  | '-' :: rest =>
      if rest ≠ [] ∧ rest.all Char.isDigit then some (-(digitsToNat rest 0 : Int)) else none
  | cs =>
      if cs.all Char.isDigit then some (digitsToNat cs 0) else none

/-- fmt.Sprintf of a duration in whole seconds, as the converter formats it. -/
def fmtSec (n : Int) : String := toString n ++ "s"

/-! ## converter.go: annotation extraction -/

/-- The rewrite-target annotation key. -/
def rewriteKey : String := "nginx.ingress.kubernetes.io/rewrite-target"

/-- The permanent-redirect annotation key. -/
def redirectKey : String := "nginx.ingress.kubernetes.io/permanent-redirect"

/-- The proxy-read-timeout annotation key. -/
def readTimeoutKey : String := "nginx.ingress.kubernetes.io/proxy-read-timeout"

/-- The proxy-send-timeout annotation key. -/
def sendTimeoutKey : String := "nginx.ingress.kubernetes.io/proxy-send-timeout"

/-- converter.go extractFilters: a rewrite-target annotation yields one
URLRewrite filter, a permanent-redirect annotation yields one
RequestRedirect filter with status 301, in that order.  The Go function
also returns an error value, but no branch ever sets it, so the
embedding is total. -/
def extractFilters (anns : AnnMap) : List HTTPRouteFilter :=
  (match anns rewriteKey with
   | some v => [HTTPRouteFilter.urlRewrite v]
   | none => []) ++
  (match anns redirectKey with
   | some v => [HTTPRouteFilter.requestRedirect v 301]
   | none => [])

/-- converter.go extractTimeouts: proxy-read-timeout (when it parses as an
integer) sets both fields; proxy-send-timeout (when it parses) allocates
the struct if needed and fills only the still-unset fields. -/
def extractTimeouts (anns : AnnMap) : Option HTTPRouteTimeouts :=
  let afterRead : Option HTTPRouteTimeouts :=
    match anns readTimeoutKey with
    | some v =>
        match atoi v with
        | some seconds =>
            let d := fmtSec seconds
            some { request := some d, backendRequest := some d }
        | none => none
    | none => none
  match anns sendTimeoutKey with
  | some v =>
      match atoi v with
      | some seconds =>
          let d := fmtSec seconds
          let t := match afterRead with
                   | none => { request := none, backendRequest := none : HTTPRouteTimeouts }
                   | some t => t
          some { request := match t.request with
                            | none => some d
                            | some r => some r,
                 backendRequest := match t.backendRequest with
                                   | none => some d
                                   | some b => some b }
      | none => afterRead
  | none => afterRead

/-! ## converter.go: rule synthesis -/

/-- The dedup key the code computes: `fmt.Sprintf("%s:%s", path, serviceName)`,
with a missing service name standing in as `""` (the code would panic
before ever using that default; see `convertHTTPRulesGo`). -/
def goKey (p : HTTPIngressPath) : String :=
  p.path ++ ":" ++ ((p.backend.service.map IngressServiceBackend.name).getD "")

/-- The rule built for one retained path entry (converter.go lines 282-335):
Exact match iff the source path type is Exact, empty path defaults to `/`,
one backend ref with weight 1, filters and timeouts from the annotations. -/
def ruleForPath (anns : AnnMap) (p : HTTPIngressPath) (sb : IngressServiceBackend) :
    HTTPRouteRule :=
  let pt := match p.pathType with
            | some IngressPathType.exact => PathMatchType.exactMatch
            | _ => PathMatchType.prefixMatch
  let pv := if p.path = "" then "/" else p.path
  { ruleMatches := [{ path := some { ty := pt, value := pv } }],
    backendRefs := [{ name := sb.name, port := sb.port.number, weight := 1 }],
    filters := extractFilters anns,
    timeouts := extractTimeouts anns }

/-- Loop body of converter.go convertHTTPRules: the dedup key is computed by
dereferencing `path.Backend.Service` with no nil check, so a path entry
without a service backend panics; a seen key is skipped; otherwise one
rule is appended and the key recorded. -/
def convertHTTPRulesGo (ing : Ingress) :
    List HTTPIngressPath → List String → GoResult (List HTTPRouteRule)
  | [], _ => .ok []
  | p :: rest, seen =>
      match p.backend.service with
      | none => .panic nilDeref
      | some sb =>
          let key := p.path ++ ":" ++ sb.name
          if key ∈ seen then
            convertHTTPRulesGo ing rest seen
          else
            match convertHTTPRulesGo ing rest (key :: seen) with
            | .ok rs => .ok (ruleForPath ing.anns p sb :: rs)
            | .err e => .err e
            | .panic m => .panic m

/-- converter.go convertHTTPRules, starting from an empty seen set. -/
def convertHTTPRules (ing : Ingress) (paths : List HTTPIngressPath) :
    GoResult (List HTTPRouteRule) :=
  convertHTTPRulesGo ing paths []

/-- converter.go createDefaultBackendRule: dereferences `backend.Service`
(panicking when absent) and builds a Prefix `/` rule with one weight-1
backend ref and neither filters nor timeouts. -/
def createDefaultBackendRule (backend : IngressBackend) : GoResult HTTPRouteRule :=
  match backend.service with
  | none => .panic nilDeref
  | some sb =>
      .ok { ruleMatches := [{ path := some { ty := PathMatchType.prefixMatch, value := "/" } }],
            backendRefs := [{ name := sb.name, port := sb.port.number, weight := 1 }],
            filters := [],
            timeouts := none }

/-! ## converter.go: naming helpers -/

/-- converter.go deriveGatewayName. -/
def deriveGatewayName (ing : Ingress) : String :=
  match ing.spec.ingressClassName with
  | some cn => "gateway-" ++ cn
  | none =>
      match ing.anns "kubernetes.io/ingress.class" with
      | some c => "gateway-" ++ c
      | none => "gateway-nginx"

/-- The gateway name every produced route references (converter.go lines
128-136 and analogues): the caller-supplied name, or the derived one. -/
def gatewayNameFor (opts : Options) (ing : Ingress) : String :=
  if opts.gatewayName = "" then deriveGatewayName ing else opts.gatewayName

/-- Character-list split on `'.'`, matching `strings.Split(host, ".")`. -/
def splitDots : List Char → List (List Char)
  | [] => [[]]
  | c :: cs =>
      let rest := splitDots cs
      if c = '.' then [] :: rest
      else
        match rest with
        | [] => [[c]]
        | seg :: segs => (c :: seg) :: segs

/-- converter.go extractHostPattern: the last two dot-separated labels of
the host, or the host itself when it has fewer than two labels. -/
def extractHostPattern (host : String) : String :=
  let parts := splitDots host.data
  if parts.length ≥ 2 then
    match parts.reverse with
    | b :: a :: _ => String.mk a ++ "." ++ String.mk b
    | _ => host
  else host

/-- Character admitted unchanged by sanitizeName's regexp `[^a-z0-9-]`. -/
def sanitizeKeep (c : Char) : Bool :=
  ('a' ≤ c ∧ c ≤ 'z') ∨ ('0' ≤ c ∧ c ≤ '9') ∨ c = '-'

/-- converter.go sanitizeName: lowercase, replace characters outside
`[a-z0-9-]` with `-`, trim `-` from both ends, truncate to 63. -/
def sanitizeName (name : String) : String :=
  let lowered := name.data.map Char.toLower
  let replaced := lowered.map fun c => if sanitizeKeep c then c else '-'
  let trimmed := ((replaced.dropWhile (· = '-')).reverse.dropWhile (· = '-')).reverse
  String.mk (trimmed.take 63)

/-! ## converter.go: split strategies -/

/-- The non-empty hostnames of the source rules, in source order, duplicates
kept — exactly what the loop at converter.go lines 120-124 collects. -/
def nonEmptyHosts (ing : Ingress) : List String :=
  ing.spec.rules.filterMap fun r => if r.host = "" then none else some r.host

/-- The rule list shared by the `single` and `per-pattern` strategies: the
Rule Synthesizer run on the FIRST source rule's path list when one exists
(converter.go lines 139-145 and 253-259), else the empty list. -/
def rulesForFirst (ing : Ingress) : GoResult (List HTTPRouteRule) :=
  match ing.spec.rules with
  | [] => .ok []
  | r0 :: _ =>
      match r0.http with
      | none => .ok []
      | some hv => convertHTTPRules ing hv.paths

/-- converter.go convertSingle: one route carrying every non-empty hostname
(duplicates included), rules from the first source rule, plus the
default-backend rule when the source declares a default backend. -/
def convertSingle (opts : Options) (ing : Ingress) : GoResult (List HTTPRoute) :=
  match rulesForFirst ing with
  | .err e => .err e
  | .panic m => .panic m
  | .ok baseRules =>
      match ing.spec.defaultBackend with
      | none =>
          .ok [{ name := ing.name ++ "-httproute",
                 ns := ing.ns, labels := ing.labels,
                 hostnames := nonEmptyHosts ing,
                 parentRefs := [gatewayNameFor opts ing],
                 rules := baseRules }]
      | some backend =>
          match createDefaultBackendRule backend with
          | .err e => .err e
          | .panic m => .panic m
          | .ok defaultRule =>
              .ok [{ name := ing.name ++ "-httproute",
                     ns := ing.ns, labels := ing.labels,
                     hostnames := nonEmptyHosts ing,
                     parentRefs := [gatewayNameFor opts ing],
                     rules := baseRules ++ [defaultRule] }]

/-- The rule list converter.go convertPerHost synthesizes for one source
rule: that rule's own path list (or no rules when it has no HTTP block,
converter.go lines 192-198). -/
def rulesForRule (ing : Ingress) (rule : IngressRule) : GoResult (List HTTPRouteRule) :=
  match rule.http with
  | none => .ok []
  | some hv => convertHTTPRules ing hv.paths

/-- Loop body of converter.go convertPerHost over the indexed rule list:
rules with an empty host are skipped (their index still advances), each
remaining rule yields one route named with its 1-based source index,
holding exactly that rule's hostname and its own path list's rules. -/
def convertPerHostGo (opts : Options) (ing : Ingress) :
    List (Nat × IngressRule) → GoResult (List HTTPRoute)
  | [] => .ok []
  | (i, rule) :: rest =>
      if rule.host = "" then convertPerHostGo opts ing rest
      else
        match rulesForRule ing rule with
        | .err e => .err e
        | .panic m => .panic m
        | .ok hostRules =>
            match convertPerHostGo opts ing rest with
            | .err e => .err e
            | .panic m => .panic m
            | .ok routes =>
                .ok ({ name := ing.name ++ "-httproute-" ++ toString (i + 1),
                       ns := ing.ns, labels := ing.labels,
                       hostnames := [rule.host],
                       parentRefs := [gatewayNameFor opts ing],
                       rules := hostRules } :: routes)

/-- converter.go convertPerHost. -/
def convertPerHost (opts : Options) (ing : Ingress) : GoResult (List HTTPRoute) :=
  convertPerHostGo opts ing ing.spec.rules.enum

/-- The hosts the converter stores under pattern key `p`: every non-empty
hostname whose pattern is `p`, in source order (the `groups[pattern] =
append(...)` loop at converter.go lines 211-218). -/
def groupHosts (ing : Ingress) (p : String) : List String :=
  (nonEmptyHosts ing).filter fun h => extractHostPattern h = p

/-- The pattern keys of the `groups` map in first-insertion order; the Go
map itself is unordered, this list is the canonical enumeration of its
key set. -/
def distinctPatterns (ing : Ingress) : List String :=
  ((nonEmptyHosts ing).map extractHostPattern).eraseDups

/-- The route converter.go convertPerPattern builds for one pattern key. -/
def mkPatternRoute (opts : Options) (ing : Ingress) (rl : List HTTPRouteRule)
    (p : String) : HTTPRoute :=
  { name := ing.name ++ "-httproute-" ++ sanitizeName p,
    ns := ing.ns, labels := ing.labels,
    hostnames := groupHosts ing p,
    parentRefs := [gatewayNameFor opts ing],
    rules := rl }

/-- Loop body of converter.go convertPerPattern over the map keys in the
iteration order Go happens to choose (the `ord` argument): each key
yields one route; the rule synthesis (always over the first source
rule's paths) aborts the whole call on failure. -/
def convertPerPatternGo (opts : Options) (ing : Ingress) :
    List String → GoResult (List HTTPRoute)
  | [] => .ok []
  | p :: rest =>
      match rulesForFirst ing with
      | .err e => .err e
      | .panic m => .panic m
      | .ok rl =>
          match convertPerPatternGo opts ing rest with
          | .err e => .err e
          | .panic m => .panic m
          | .ok routes => .ok (mkPatternRoute opts ing rl p :: routes)

/-- converter.go convertPerPattern, with the map iteration order made
explicit: `ord` must be a permutation of `distinctPatterns ing` to model
a real execution. -/
def convertPerPattern (opts : Options) (ing : Ingress) (ord : List String) :
    GoResult (List HTTPRoute) :=
  convertPerPatternGo opts ing ord

/-! ## converter.go: the batch entry point -/

/-- converter.go convertIngress: dispatch on the split mode string; any
other mode is a typed conversion error. -/
def convertIngress (opts : Options) (ord : List String) (ing : Ingress) :
    GoResult (List HTTPRoute) :=
  if opts.splitMode = "single" then convertSingle opts ing
  else if opts.splitMode = "per-host" then convertPerHost opts ing
  else if opts.splitMode = "per-pattern" then convertPerPattern opts ing ord
  else .err ("invalid split mode: " ++ opts.splitMode)

/-- One batch item handed to Convert: the Go code receives `[]interface{}`
and type-asserts each element, so an element is either an Ingress or
some other value. -/
inductive SourceItem where
  | ingress (ing : Ingress)
  | other

/-- The processing of one batch element inside converter.go Convert lines
73-85: a non-Ingress element is the error `invalid ingress type`, a
failed conversion is wrapped with the resource identity, a panic
propagates unchanged. -/
def convertItem (opts : Options) (ordOf : Ingress → List String) :
    SourceItem → GoResult (List HTTPRoute)
  | .other => .err "invalid ingress type"
  | .ingress ing =>
      match convertIngress opts (ordOf ing) ing with
      | .ok routes => .ok routes
      | .err e => .err ("failed to convert ingress " ++ ing.name ++ ": " ++ e)
      | .panic m => .panic m

/-- converter.go Convert: left-to-right loop over the batch, appending each
item's routes; the FIRST failing item makes the whole call return that
single error, so later items are never processed. -/
def Convert (opts : Options) (ordOf : Ingress → List String) :
    List SourceItem → GoResult (List HTTPRoute)
  | [] => .ok []
  | item :: rest =>
      match convertItem opts ordOf item with
      | .err e => .err e
      | .panic m => .panic m
      | .ok routes =>
          match Convert opts ordOf rest with
          | .err e => .err e
          | .panic m => .panic m
          | .ok more => .ok (routes ++ more)

/-! ## validator.go: timeout validation -/

/-- The unit suffix of a duration accepted by the validator's regexp. -/
inductive DurUnit where
  | hU | mU | sU | msU
deriving DecidableEq, Repr

/-- Match of validator.go's regexp `^([0-9]+)(h|m|s|ms)$`: one or more
digits followed by exactly one of the four unit suffixes.  The digit run
is maximal and units contain no digits, so regexp backtracking cannot
produce any other decomposition. -/
def parseDurParts (s : String) : Option (Nat × DurUnit) :=
  let digits := s.data.takeWhile Char.isDigit
  let rest := s.data.dropWhile Char.isDigit
  if digits = [] then none
  else
    match rest with
    | ['h'] => some (digitsToNat digits 0, DurUnit.hU)
    | ['s'] => some (digitsToNat digits 0, DurUnit.sU)
    | ['m'] => some (digitsToNat digits 0, DurUnit.mU)
    | ['m', 's'] => some (digitsToNat digits 0, DurUnit.msU)
    | _ => none

/-- validator.go isValidDuration. -/
def isValidDuration (duration : String) : Bool :=
  (parseDurParts duration).isSome

/-- The maximum value of Go's 64-bit `int`. -/
def maxInt64 : Int := 9223372036854775807

/-- Two's-complement wrap of an arithmetic result into the int64 range. -/
def wrap64 (n : Int) : Int := (n + 2 ^ 63) % 2 ^ 64 - 2 ^ 63

/-- strconv.Atoi applied to the regexp's digit capture at validator.go line
299: the range error is DISCARDED (`value, _ := strconv.Atoi(...)`), so a
digit string beyond the int64 range yields the saturated maximum int64
value. -/
def atoiDigitsSat (v : Nat) : Int := min (v : Int) maxInt64

/-- validator.go parseDuration: whole seconds exactly as the Go int
computes them — the digit capture saturates at max int64 (Atoi's ignored
range error), the `h` and `m` branches multiply in wrapping int64
arithmetic, the `ms` branch truncates by integer division, and any
non-matching string maps to 0. -/
def parseDuration (duration : String) : Int :=
  match parseDurParts duration with
  | none => 0
  | some (v, DurUnit.hU) => wrap64 (atoiDigitsSat v * 3600)
  | some (v, DurUnit.mU) => wrap64 (atoiDigitsSat v * 60)
  | some (v, DurUnit.sU) => atoiDigitsSat v
  | some (v, DurUnit.msU) => atoiDigitsSat v / 1000

/-- The findings validator.go validateTimeouts can append, with their
payloads. -/
inductive ValFinding where
  | orderingViolation (ruleIdx : Nat) (backendVal requestVal : String)
  | invalidRequestFormat (ruleIdx : Nat)
  | invalidBackendFormat (ruleIdx : Nat)
deriving DecidableEq, Repr

/-- validator.go validateTimeouts: the ordering error fires only when both
fields are present and both parse to strictly positive whole seconds;
then each present field failing the duration regexp yields a format
error. -/
def validateTimeouts (timeouts : HTTPRouteTimeouts) (ruleIdx : Nat) :
    List ValFinding :=
  (match timeouts.request, timeouts.backendRequest with
   | some rq, some bk =>
       if 0 < parseDuration rq ∧ 0 < parseDuration bk ∧
          parseDuration rq < parseDuration bk then
         [ValFinding.orderingViolation ruleIdx bk rq]
       else []
   | _, _ => []) ++
  (match timeouts.request with
   | some rq => if isValidDuration rq then [] else [ValFinding.invalidRequestFormat ruleIdx]
   | none => []) ++
  (match timeouts.backendRequest with
   | some bk => if isValidDuration bk then [] else [ValFinding.invalidBackendFormat ruleIdx]
   | none => [])

/-! ## analyzer: readiness classification -/

/-- The analyzer's `contains` helper: linear scan for an equal string. -/
def containsStr (slice : List String) (item : String) : Bool :=
  match slice with
  | [] => false
  | s :: rest => if s = item then true else containsStr rest item

/-- The analyzer's blocker list. -/
def blockerTags : List String := ["CUSTOM_SNIPPET", "SERVER_SNIPPET"]

/-- Loop over the blocker list: true when any blocker tag is present. -/
def hasBlocker (features : List String) : Bool :=
  blockerTags.any fun b => containsStr features b

/-- analyzer assessReadiness: blocker tags force MANUAL_REVIEW_REQUIRED,
otherwise the score thresholds 10 and 25 pick the category. -/
def assessReadiness (score : Int) (features : List String) : String :=
  if hasBlocker features then "MANUAL_REVIEW_REQUIRED"
  else if score ≤ 10 then "READY"
  else if score ≤ 25 then "MOSTLY_READY"
  else "COMPLEX"

/-! ## Spec-side vocabulary

Definitions in this section follow the SPEC's words, not the code; they
exist to state what the spec demands so that theorems can compare the
code's behaviour against it. -/

/-- Modelled from the spec: first-occurrence deduplication, the "retain
only the first occurrence of each distinct key" / "ordered union of all
distinct ... hostnames" operation the spec describes. -/
def firstDedupGo {α : Type} [DecidableEq α] : List α → List α → List α
  | [], _ => []
  | x :: xs, seen =>
      if x ∈ seen then firstDedupGo xs seen
      else x :: firstDedupGo xs (x :: seen)

/-- Modelled from the spec: first-occurrence deduplication of a list. -/
def firstDedup {α : Type} [DecidableEq α] (l : List α) : List α :=
  firstDedupGo l []

/-- Modelled from the spec: the per-path dedup key "(path value, backend
service name)" as an actual pair (an absent service name reads as ""). -/
def specPairKey (p : HTTPIngressPath) : String × String :=
  (p.path, (p.backend.service.map IngressServiceBackend.name).getD "")

/-- Modelled from the spec: the ordered union of all distinct, non-empty
source rule hostnames. -/
def specDistinctHostnames (ing : Ingress) : List String :=
  firstDedup (nonEmptyHosts ing)

/-! ## Concrete fixtures for counterexamples and witnesses -/

/-- The empty annotation map. -/
def emptyAnns : AnnMap := fun _ => none

/-- A backend for service `n` on port 80. -/
def svcBackend (n : String) : IngressBackend :=
  { service := some { name := n, port := { number := 80 } } }

/-- A path entry with no explicit path type. -/
def mkPath (pa svc : String) : HTTPIngressPath :=
  { path := pa, pathType := none, backend := svcBackend svc }

/-- Options selecting the `single` split mode. -/
def singleOpts : Options := { splitMode := "single", gatewayName := "gw", gatewayClass := "nginx" }

/-- Options selecting the `per-host` split mode. -/
def perHostOpts : Options := { splitMode := "per-host", gatewayName := "gw", gatewayClass := "nginx" }

/-- Options selecting the `per-pattern` split mode. -/
def perPatternOpts : Options := { splitMode := "per-pattern", gatewayName := "gw", gatewayClass := "nginx" }

/-- A trivial iteration-order oracle (unused by the single-mode calls it
accompanies). -/
def noOrd : Ingress → List String := fun _ => []

/-- A one-rule, one-path source resource that converts successfully. -/
def goodIng : Ingress :=
  { name := "good", ns := "default", labels := [], anns := emptyAnns,
    spec := { ingressClassName := none,
              rules := [{ host := "app.example.com",
                          http := some { paths := [mkPath "/" "web"] } }],
              defaultBackend := none } }

/-- A source resource whose only rule path has NO backend service
reference (legal in the source schema, which also admits resource
backends). -/
def badSvcIng : Ingress :=
  { name := "bad", ns := "default", labels := [], anns := emptyAnns,
    spec := { ingressClassName := none,
              rules := [{ host := "app.example.com",
                          http := some { paths := [{ path := "/x", pathType := none,
                                                     backend := { service := none } }] } }],
              defaultBackend := none } }

/-- A source resource with two hosts under two different 2-label
patterns. -/
def patIng : Ingress :=
  { name := "pat", ns := "default", labels := [], anns := emptyAnns,
    spec := { ingressClassName := none,
              rules := [{ host := "a.x.com",
                          http := some { paths := [mkPath "/" "web"] } },
                        { host := "b.y.org",
                          http := some { paths := [mkPath "/" "web"] } }],
              defaultBackend := none } }

/-- A source resource listing the SAME hostname in two rules. -/
def dupHostIng : Ingress :=
  { name := "dup", ns := "default", labels := [], anns := emptyAnns,
    spec := { ingressClassName := none,
              rules := [{ host := "a.example.com",
                          http := some { paths := [mkPath "/" "web"] } },
                        { host := "a.example.com",
                          http := some { paths := [mkPath "/" "web"] } }],
              defaultBackend := none } }

/-- A source resource with rewrite, redirect and timeout annotations AND a
default backend. -/
def defaultBackendIng : Ingress :=
  { name := "defb", ns := "default", labels := [], anns := fun k =>
      if k = rewriteKey then some "/target"
      else if k = redirectKey then some "new.example.com"
      else if k = readTimeoutKey then some "60"
      else if k = sendTimeoutKey then some "30"
      else none,
    spec := { ingressClassName := none,
              rules := [{ host := "app.example.com",
                          http := some { paths := [mkPath "/" "web"] } }],
              defaultBackend := some (svcBackend "fallback") } }

/-- Two path entries with DISTINCT (path, service) pairs whose string keys
collide: `"/a:b" + ":" + "c"` equals `"/a" + ":" + "b:c"`. -/
def collidePathA : HTTPIngressPath := mkPath "/a:b" "c"

/-- The second colliding path entry. -/
def collidePathB : HTTPIngressPath := mkPath "/a" "b:c"

/-! ## Helper lemmas shared across claims -/

/-- The list of a successful result, `[]` otherwise (used to name the
concrete value a witness instantiates a hypothesis with). -/
def okList {α : Type} : GoResult (List α) → List α
  | .ok l => l
  | _ => []

theorem containsStr_iff (l : List String) (x : String) :
    containsStr l x = true ↔ x ∈ l := by
  induction l with
  | nil => simp [containsStr]
  | cons s rest ih =>
      by_cases h : s = x
      · subst h; simp [containsStr]
      · have h' : ¬ x = s := fun hx => h hx.symm
        simp [containsStr, h, h', ih]

theorem hasBlocker_iff (features : List String) :
    hasBlocker features = true ↔
      "CUSTOM_SNIPPET" ∈ features ∨ "SERVER_SNIPPET" ∈ features := by
  simp [hasBlocker, blockerTags, List.any_eq_true, containsStr_iff]

theorem parseDuration_pos_valid {s : String} (h : 0 < parseDuration s) :
    isValidDuration s = true := by
  cases hp : parseDurParts s with
  | none => simp [parseDuration, hp] at h
  | some v => simp [isValidDuration, hp]

theorem getLast?_append_single {α : Type} (l : List α) (x : α) :
    (l ++ [x]).getLast? = some x := by
  induction l with
  | nil => rfl
  | cons a rest ih =>
      rw [List.cons_append, List.getLast?_cons, ih]
      cases rest <;> simp

/-! ## Claim C9: readiness classification -/

/-- C9: if the feature set contains either snippet tag, the readiness
classification is MANUAL_REVIEW_REQUIRED regardless of score; otherwise
a score of at most 10 yields READY, 11 to 25 yields MOSTLY_READY, and a
score above 25 yields COMPLEX. -/
theorem c9_readiness_classification (score : Int) (features : List String) :
    (("CUSTOM_SNIPPET" ∈ features ∨ "SERVER_SNIPPET" ∈ features) →
        assessReadiness score features = "MANUAL_REVIEW_REQUIRED")
    ∧ (¬("CUSTOM_SNIPPET" ∈ features ∨ "SERVER_SNIPPET" ∈ features) →
        (score ≤ 10 → assessReadiness score features = "READY")
        ∧ (11 ≤ score → score ≤ 25 → assessReadiness score features = "MOSTLY_READY")
        ∧ (25 < score → assessReadiness score features = "COMPLEX")) := by
  constructor
  · intro h
    unfold assessReadiness
    rw [if_pos ((hasBlocker_iff features).mpr h)]
  · intro h
    have hb : hasBlocker features = false := by
      cases hv : hasBlocker features with
      | false => rfl
      | true => exact absurd ((hasBlocker_iff features).mp hv) h
    refine ⟨fun h10 => ?_, fun h11 h25 => ?_, fun h25 => ?_⟩
    · unfold assessReadiness
      rw [hb]
      simp [h10]
    · unfold assessReadiness
      rw [hb]
      have : ¬ score ≤ 10 := by omega
      simp [this, h25]
    · unfold assessReadiness
      rw [hb]
      have h1 : ¬ score ≤ 10 := by omega
      have h2 : ¬ score ≤ 25 := by omega
      simp [h1, h2]

/-- C9 witness: a blocker tag forces MANUAL_REVIEW_REQUIRED at score 30,
and without blockers score 15 lands in MOSTLY_READY. -/
theorem c9_readiness_witness :
    assessReadiness 30 ["CUSTOM_SNIPPET"] = "MANUAL_REVIEW_REQUIRED"
    ∧ assessReadiness 15 ["URL_REWRITE"] = "MOSTLY_READY" :=
  ⟨(c9_readiness_classification 30 ["CUSTOM_SNIPPET"]).1 (by decide),
   ((c9_readiness_classification 15 ["URL_REWRITE"]).2 (by decide)).2.1
     (by decide) (by decide)⟩

/-! ## Claim C1: batch failure isolation -/

/-- C1 counterexample: the claim that one item's conversion failure never
aborts the batch is false — a batch whose first element is not an
Ingress makes `Convert` return a single error and the sibling (which
converts successfully on its own) is never processed. -/
theorem c1_counterexample_batch_abort :
    Convert singleOpts noOrd [SourceItem.other, SourceItem.ingress goodIng]
      = GoResult.err "invalid ingress type"
    ∧ (Convert singleOpts noOrd [SourceItem.ingress goodIng]).isOk = true := by
  constructor <;> decide

/-- C1 amended: `Convert` aborts at the FIRST failing batch item and
returns a single error (or panic) for the whole call — it succeeds
exactly when every item converts, and reports no per-item statuses. -/
theorem convert_cons_isOk (opts : Options) (ordOf : Ingress → List String)
    (item : SourceItem) (rest : List SourceItem) :
    (Convert opts ordOf (item :: rest)).isOk =
      ((convertItem opts ordOf item).isOk && (Convert opts ordOf rest).isOk) := by
  cases hi : convertItem opts ordOf item <;>
    cases hr : Convert opts ordOf rest <;>
      simp [Convert, hi, hr, GoResult.isOk]

theorem c1_amended_first_failure_aborts_batch (opts : Options)
    (ordOf : Ingress → List String) (items : List SourceItem) :
    (Convert opts ordOf items).isOk = true ↔
      ∀ item ∈ items, (convertItem opts ordOf item).isOk = true := by
  induction items with
  | nil => simp [Convert, GoResult.isOk]
  | cons item rest ih =>
      rw [convert_cons_isOk]
      simp [Bool.and_eq_true, ih, List.forall_mem_cons]

/-! ## Claim C2: input defects -/

/-- C2: an unsupported split mode is indeed surfaced as a typed conversion
error, but a source rule path with a missing backend service reference
makes the converter dereference a nil pointer: `Convert` PANICS on such
an input instead of returning the typed error the spec demands. -/
theorem c2_missing_backend_service_panics :
    Convert singleOpts noOrd [SourceItem.ingress badSvcIng] = GoResult.panic nilDeref
    ∧ convertIngress { splitMode := "bogus", gatewayName := "gw", gatewayClass := "nginx" }
        [] goodIng = GoResult.err "invalid split mode: bogus" := by
  constructor <;> decide

/-! ## Claim C5: timeout extraction -/

/-- Every non-nil extractTimeouts result has both fields set to one and the
same duration string: the read-timeout branch writes both fields, and
the send-timeout branch only fills fields that are still unset. -/
theorem extractTimeouts_shape (anns : AnnMap) :
    extractTimeouts anns = none ∨
      ∃ d, extractTimeouts anns = some { request := some d, backendRequest := some d } := by
  unfold extractTimeouts
  cases hr : anns readTimeoutKey with
  | none =>
      cases hs : anns sendTimeoutKey with
      | none => left; rfl
      | some v =>
          cases ha : atoi v with
          | none => left; simp [ha]
          | some n => right; exact ⟨fmtSec n, by simp [ha]⟩
  | some v =>
      cases ha : atoi v with
      | none =>
          cases hs : anns sendTimeoutKey with
          | none => left; simp [ha]
          | some w =>
              cases ha' : atoi w with
              | none => left; simp [ha, ha']
              | some n' => right; exact ⟨fmtSec n', by simp [ha, ha']⟩
      | some n =>
          cases hs : anns sendTimeoutKey with
          | none => right; exact ⟨fmtSec n, by simp [ha]⟩
          | some w =>
              cases ha' : atoi w with
              | none => right; exact ⟨fmtSec n, by simp [ha, ha']⟩
              | some n' => right; exact ⟨fmtSec n, by simp [ha, ha']⟩

/-- C5: a parseable read-timeout of N seconds sets both request and
backendRequest to "Ns" (even when a send-timeout is also present: read
takes precedence); with no read-timeout, a parseable send-timeout fills
both still-unset fields; and in every generated Timeouts value the two
fields are EQUAL, so backendRequest ≤ request holds under any duration
interpretation. -/
theorem c5_timeouts_read_precedence_and_ordering (anns : AnnMap) :
    (∀ v n, anns readTimeoutKey = some v → atoi v = some n →
        extractTimeouts anns =
          some { request := some (fmtSec n), backendRequest := some (fmtSec n) })
    ∧ (∀ v n, anns readTimeoutKey = none → anns sendTimeoutKey = some v →
        atoi v = some n →
        extractTimeouts anns =
          some { request := some (fmtSec n), backendRequest := some (fmtSec n) })
    ∧ (∀ t, extractTimeouts anns = some t →
        t.backendRequest = t.request ∧ t.request.isSome = true) := by
  refine ⟨?_, ?_, ?_⟩
  · intro v n hv hn
    unfold extractTimeouts
    simp only [hv, hn]
    cases hs : anns sendTimeoutKey with
    | none => rfl
    | some w =>
        cases ha : atoi w with
        | none => simp [ha]
        | some n' => simp [ha]
  · intro v n hr hv hn
    unfold extractTimeouts
    simp [hr, hv, hn]
  · intro t ht
    rcases extractTimeouts_shape anns with hnone | ⟨d, hd⟩
    · rw [hnone] at ht; cases ht
    · rw [hd] at ht
      cases ht
      exact ⟨rfl, rfl⟩

/-- C5 witness: with read-timeout "60" and send-timeout "30" both present,
the generated value sets both fields to "60s". -/
theorem c5_timeouts_witness :
    extractTimeouts defaultBackendIng.anns =
      some { request := some "60s", backendRequest := some "60s" } :=
  (c5_timeouts_read_precedence_and_ordering defaultBackendIng.anns).1 "60" 60
    (by decide) (by decide)

/-! ## Claim C7: single-mode hostname list -/

/-- The hostname list of the first route of a successful result. -/
def okFirstHostnames : GoResult (List HTTPRoute) → List String
  | .ok (r :: _) => r.hostnames
  | _ => []

/-- C7 counterexample: the claim that single mode emits each distinct
hostname at most once is false — a hostname occurring in two source
rules appears TWICE in the produced hostname list, where the spec's
ordered union keeps it once. -/
theorem c7_counterexample_duplicate_hostnames :
    okFirstHostnames (convertSingle singleOpts dupHostIng)
        = ["a.example.com", "a.example.com"]
    ∧ specDistinctHostnames dupHostIng = ["a.example.com"] := by
  constructor <;> decide

/-- C7 amended: in single mode the produced route's hostname list is the
list of ALL non-empty source rule hostnames in source order, duplicates
retained (no union is taken). -/
theorem c7_amended_hostnames_in_source_order (opts : Options) (ing : Ingress)
    (l : List HTTPRoute) (h : convertSingle opts ing = GoResult.ok l) :
    l.map HTTPRoute.hostnames = [nonEmptyHosts ing] := by
  unfold convertSingle at h
  cases hr : rulesForFirst ing with
  | err e => simp only [hr] at h; exact absurd h (by simp)
  | panic m => simp only [hr] at h; exact absurd h (by simp)
  | ok baseRules =>
      simp only [hr] at h
      cases hdb : ing.spec.defaultBackend with
      | none =>
          simp only [hdb] at h
          injection h with h2
          subst h2
          rfl
      | some backend =>
          simp only [hdb] at h
          cases hcd : createDefaultBackendRule backend with
          | err e => simp only [hcd] at h; exact absurd h (by simp)
          | panic m => simp only [hcd] at h; exact absurd h (by simp)
          | ok dr =>
              simp only [hcd] at h
              injection h with h2
              subst h2
              rfl

/-- C7 amended witness: the duplicated-host resource instantiates the
amended statement. -/
theorem c7_amended_witness :
    convertSingle singleOpts dupHostIng
        = GoResult.ok (okList (convertSingle singleOpts dupHostIng))
    ∧ (okList (convertSingle singleOpts dupHostIng)).map HTTPRoute.hostnames
        = [nonEmptyHosts dupHostIng] :=
  ⟨by decide,
   c7_amended_hostnames_in_source_order singleOpts dupHostIng
     (okList (convertSingle singleOpts dupHostIng)) (by decide)⟩

/-! ## Claim C8: the validator's timeout-ordering check -/

/-- C8 counterexample: with `request = "0s"` and `backendRequest = "5s"`
both durations are well-formed and backendRequest exceeds request after
truncation to whole seconds, yet the validator reports NO ordering error
(it requires both parsed values to be strictly positive). -/
theorem c8_counterexample_zero_request :
    isValidDuration "0s" = true ∧ isValidDuration "5s" = true
    ∧ parseDuration "0s" < parseDuration "5s"
    ∧ validateTimeouts { request := some "0s", backendRequest := some "5s" } 0 = [] := by
  refine ⟨by decide, by decide, by decide, by decide⟩

/-- C8 amended: for a rule whose Timeouts has both fields set, the
validator reports the ordering error exactly when both durations are
well-formed and, comparing the int64 whole-second values the code
actually computes (digit capture saturating at max int64, h/m
multiplications wrapping, ms truncated by integer division), the request
value is strictly positive and the backendRequest value strictly exceeds
it. -/
theorem c8_amended_ordering_error_iff (t : HTTPRouteTimeouts) (i : Nat)
    (rq bk : String) (hrq : t.request = some rq) (hbk : t.backendRequest = some bk) :
    ValFinding.orderingViolation i bk rq ∈ validateTimeouts t i ↔
      (isValidDuration rq = true ∧ isValidDuration bk = true ∧
       0 < parseDuration rq ∧ parseDuration rq < parseDuration bk) := by
  simp only [validateTimeouts, hrq, hbk]
  by_cases hc : 0 < parseDuration rq ∧ 0 < parseDuration bk ∧
      parseDuration rq < parseDuration bk
  · rw [if_pos hc]
    constructor
    · intro _
      exact ⟨parseDuration_pos_valid hc.1, parseDuration_pos_valid hc.2.1,
             hc.1, hc.2.2⟩
    · intro _
      simp
  · rw [if_neg hc]
    constructor
    · intro hmem
      exfalso
      rcases List.mem_append.mp hmem with hm | hm
      · rcases List.mem_append.mp hm with hm2 | hm2
        · simp at hm2
        · by_cases hvr : isValidDuration rq <;> simp [hvr] at hm2
      · by_cases hvb : isValidDuration bk <;> simp [hvb] at hm
    · rintro ⟨h1, h2, h3, h4⟩
      exact absurd ⟨h3, lt_trans h3 h4, h4⟩ hc

/-- C8 amended witness: the spec's own scenario B input (request "300s",
backendRequest "600s") triggers the ordering error. -/
theorem c8_amended_witness :
    ({ request := some "300s", backendRequest := some "600s" } : HTTPRouteTimeouts).request
        = some "300s"
    ∧ ({ request := some "300s", backendRequest := some "600s" } : HTTPRouteTimeouts).backendRequest
        = some "600s"
    ∧ ValFinding.orderingViolation 0 "600s" "300s" ∈
        validateTimeouts { request := some "300s", backendRequest := some "600s" } 0 :=
  ⟨rfl, rfl,
   (c8_amended_ordering_error_iff
      { request := some "300s", backendRequest := some "600s" } 0 "300s" "600s"
      rfl rfl).mpr (by decide)⟩

/-- Two well-formed second durations beyond the int64 range both saturate
to max int64 (Atoi's range error is ignored), so the validator cannot
tell them apart: the strictly larger backendRequest raises NO ordering
finding. -/
theorem parseDuration_saturation_collapse :
    parseDuration "99999999999999999999s" = maxInt64
    ∧ parseDuration "999999999999999999999s" = maxInt64
    ∧ validateTimeouts { request := some "99999999999999999999s",
                         backendRequest := some "999999999999999999999s" } 0 = [] := by
  refine ⟨by decide, by decide, by decide⟩

/-! ## Claim C10: the default-backend rule -/

/-- C10: whenever the source declares a default backend (with a service
reference) and single-mode conversion succeeds, the LAST rule of the one
produced route is exactly the default-backend rule: one Prefix "/"
match, one weight-1 backend ref to the default service, no filters and
no timeouts — regardless of any rewrite/redirect/timeout annotations on
the source resource. -/
theorem c10_default_backend_rule (opts : Options) (ing : Ingress)
    (b : IngressBackend) (sb : IngressServiceBackend) (l : List HTTPRoute)
    (hdb : ing.spec.defaultBackend = some b) (hsvc : b.service = some sb)
    (h : convertSingle opts ing = GoResult.ok l) :
    l.map (fun r => r.rules.getLast?) =
      [some { ruleMatches := [{ path := some { ty := PathMatchType.prefixMatch, value := "/" } }],
              backendRefs := [{ name := sb.name, port := sb.port.number, weight := 1 }],
              filters := [], timeouts := none }] := by
  unfold convertSingle at h
  cases hr : rulesForFirst ing with
  | err e => simp only [hr] at h; exact absurd h (by simp)
  | panic m => simp only [hr] at h; exact absurd h (by simp)
  | ok baseRules =>
      simp only [hr, hdb] at h
      unfold createDefaultBackendRule at h
      simp only [hsvc] at h
      injection h with h2
      subst h2
      simp [getLast?_append_single]

/-- C10 witness: a source resource carrying rewrite, redirect and timeout
annotations plus a default backend still gets the bare default rule
appended last. -/
theorem c10_default_backend_witness :
    defaultBackendIng.spec.defaultBackend = some (svcBackend "fallback")
    ∧ (svcBackend "fallback").service = some { name := "fallback", port := { number := 80 } }
    ∧ convertSingle singleOpts defaultBackendIng
        = GoResult.ok (okList (convertSingle singleOpts defaultBackendIng))
    ∧ (okList (convertSingle singleOpts defaultBackendIng)).map (fun r => r.rules.getLast?)
        = [some { ruleMatches := [{ path := some { ty := PathMatchType.prefixMatch, value := "/" } }],
                  backendRefs := [{ name := "fallback", port := 80, weight := 1 }],
                  filters := [], timeouts := none }] :=
  ⟨rfl, rfl, by decide,
   c10_default_backend_rule singleOpts defaultBackendIng (svcBackend "fallback")
     { name := "fallback", port := { number := 80 } }
     (okList (convertSingle singleOpts defaultBackendIng)) rfl rfl (by decide)⟩

/-! ## Claim C6: split-mode cardinalities -/

/-- A successful single-mode conversion always returns exactly one route. -/
theorem convertSingle_ok_length (opts : Options) (ing : Ingress)
    (l : List HTTPRoute) (h : convertSingle opts ing = GoResult.ok l) :
    l.length = 1 := by
  unfold convertSingle at h
  cases hr : rulesForFirst ing with
  | err e => simp only [hr] at h; exact absurd h (by simp)
  | panic m => simp only [hr] at h; exact absurd h (by simp)
  | ok baseRules =>
      simp only [hr] at h
      cases hdb : ing.spec.defaultBackend with
      | none => simp only [hdb] at h; injection h with h2; subst h2; rfl
      | some backend =>
          simp only [hdb] at h
          cases hcd : createDefaultBackendRule backend with
          | err e => simp only [hcd] at h; exact absurd h (by simp)
          | panic m => simp only [hcd] at h; exact absurd h (by simp)
          | ok dr => simp only [hcd] at h; injection h with h2; subst h2; rfl

/-- A successful per-host loop returns one route per indexed rule whose
host is non-empty. -/
theorem convertPerHostGo_ok_length (opts : Options) (ing : Ingress) :
    ∀ (xs : List (Nat × IngressRule)) (l : List HTTPRoute),
      convertPerHostGo opts ing xs = GoResult.ok l →
      l.length = (xs.filter fun p => p.2.host != "").length := by
  intro xs
  induction xs with
  | nil =>
      intro l h
      injection h with h2
      subst h2
      rfl
  | cons x rest ih =>
      obtain ⟨i, rule⟩ := x
      intro l h
      unfold convertPerHostGo at h
      by_cases hhost : rule.host = ""
      · rw [if_pos hhost] at h
        have hlen := ih l h
        simp [List.filter_cons, hhost, hlen]
      · rw [if_neg hhost] at h
        cases hr : rulesForRule ing rule with
        | err e => simp only [hr] at h; exact absurd h (by simp)
        | panic m => simp only [hr] at h; exact absurd h (by simp)
        | ok hostRules =>
            simp only [hr] at h
            cases hrest : convertPerHostGo opts ing rest with
            | err e => simp only [hrest] at h; exact absurd h (by simp)
            | panic m => simp only [hrest] at h; exact absurd h (by simp)
            | ok routes =>
                simp only [hrest] at h
                injection h with h2
                subst h2
                have hlen := ih routes hrest
                simp [List.filter_cons, hhost, hlen]

/-- Filtering the enumerated rule list on the rule component counts the
same elements as filtering the rule list itself. -/
theorem enumFrom_filter_host_length :
    ∀ (rs : List IngressRule) (n : Nat),
      ((List.enumFrom n rs).filter fun p => p.2.host != "").length
        = (rs.filter fun r => r.host != "").length := by
  intro rs
  induction rs with
  | nil => intro n; rfl
  | cons r rest ih =>
      intro n
      simp only [List.enumFrom, List.filter_cons]
      by_cases hh : r.host = ""
      · simp [hh, ih]
      · simp [hh, ih]

/-- With the shared rule synthesis succeeding, the per-pattern loop maps
its iteration order pointwise to routes. -/
theorem convertPerPatternGo_ok (opts : Options) (ing : Ingress)
    (rl : List HTTPRouteRule) (hres : rulesForFirst ing = GoResult.ok rl) :
    ∀ ord, convertPerPatternGo opts ing ord
      = GoResult.ok (ord.map (mkPatternRoute opts ing rl)) := by
  intro ord
  induction ord with
  | nil => rfl
  | cons p rest ih => simp [convertPerPatternGo, hres, ih]

/-- With the shared rule synthesis failing, any non-empty iteration order
makes the per-pattern loop return that error. -/
theorem convertPerPatternGo_err (opts : Options) (ing : Ingress) (e : String)
    (hres : rulesForFirst ing = GoResult.err e) (p : String) (rest : List String) :
    convertPerPatternGo opts ing (p :: rest) = GoResult.err e := by
  simp [convertPerPatternGo, hres]

/-- With the shared rule synthesis panicking, any non-empty iteration order
makes the per-pattern loop panic. -/
theorem convertPerPatternGo_panic (opts : Options) (ing : Ingress) (m : String)
    (hres : rulesForFirst ing = GoResult.panic m) (p : String) (rest : List String) :
    convertPerPatternGo opts ing (p :: rest) = GoResult.panic m := by
  simp [convertPerPatternGo, hres]

/-- C6 counterexample: per-host cardinality is NOT the number of distinct
non-empty hostnames — a hostname listed in two source rules yields TWO
routes while there is only one distinct hostname. -/
theorem c6_counterexample_per_host_duplicate :
    specDistinctHostnames dupHostIng = ["a.example.com"]
    ∧ okLength (convertPerHost perHostOpts dupHostIng) = 2 := by
  constructor <;> decide

/-- C6 amended: single mode yields exactly 1 route; per-host mode yields
one route per source RULE with a non-empty hostname (duplicate hostnames
yield duplicate routes); per-pattern mode yields one route per distinct
last-two-label pattern of the non-empty hostnames. -/
theorem c6_amended_cardinalities :
    (∀ (opts : Options) (ing : Ingress) (l : List HTTPRoute),
        convertSingle opts ing = GoResult.ok l → l.length = 1)
    ∧ (∀ (opts : Options) (ing : Ingress) (l : List HTTPRoute),
        convertPerHost opts ing = GoResult.ok l →
        l.length = (ing.spec.rules.filter fun r => r.host != "").length)
    ∧ (∀ (opts : Options) (ing : Ingress) (ord : List String) (l : List HTTPRoute),
        ord.Perm (distinctPatterns ing) →
        convertPerPattern opts ing ord = GoResult.ok l →
        l.length = (distinctPatterns ing).length) := by
  refine ⟨convertSingle_ok_length, ?_, ?_⟩
  · intro opts ing l h
    have hlen := convertPerHostGo_ok_length opts ing ing.spec.rules.enum l h
    rw [hlen]
    exact enumFrom_filter_host_length ing.spec.rules 0
  · intro opts ing ord l hperm h
    cases hres : rulesForFirst ing with
    | ok rl =>
        rw [convertPerPattern, convertPerPatternGo_ok opts ing rl hres ord] at h
        injection h with h2
        subst h2
        simp [hperm.length_eq]
    | err e =>
        cases ord with
        | nil =>
            have hdp : distinctPatterns ing = [] := hperm.symm.eq_nil
            injection h with h2
            subst h2
            simp [hdp]
        | cons p rest =>
            rw [convertPerPattern, convertPerPatternGo_err opts ing e hres p rest] at h
            exact absurd h (by simp)
    | panic m =>
        cases ord with
        | nil =>
            have hdp : distinctPatterns ing = [] := hperm.symm.eq_nil
            injection h with h2
            subst h2
            simp [hdp]
        | cons p rest =>
            rw [convertPerPattern, convertPerPatternGo_panic opts ing m hres p rest] at h
            exact absurd h (by simp)

/-- C6 amended witness: the three cardinalities at concrete inputs — 1
route in single mode, 2 routes for the duplicated host in per-host mode,
and 2 routes for the two patterns of `patIng` in per-pattern mode. -/
theorem c6_amended_witness :
    (convertSingle singleOpts goodIng
        = GoResult.ok (okList (convertSingle singleOpts goodIng))
      ∧ (okList (convertSingle singleOpts goodIng)).length = 1)
    ∧ (convertPerHost perHostOpts dupHostIng
        = GoResult.ok (okList (convertPerHost perHostOpts dupHostIng))
      ∧ (okList (convertPerHost perHostOpts dupHostIng)).length
          = (dupHostIng.spec.rules.filter fun r => r.host != "").length)
    ∧ ((distinctPatterns patIng).Perm (distinctPatterns patIng)
      ∧ convertPerPattern perPatternOpts patIng (distinctPatterns patIng)
          = GoResult.ok (okList (convertPerPattern perPatternOpts patIng (distinctPatterns patIng)))
      ∧ (okList (convertPerPattern perPatternOpts patIng (distinctPatterns patIng))).length
          = (distinctPatterns patIng).length) :=
  ⟨⟨by decide,
    c6_amended_cardinalities.1 singleOpts goodIng
      (okList (convertSingle singleOpts goodIng)) (by decide)⟩,
   ⟨by decide,
    c6_amended_cardinalities.2.1 perHostOpts dupHostIng
      (okList (convertPerHost perHostOpts dupHostIng)) (by decide)⟩,
   List.Perm.refl (distinctPatterns patIng), by decide,
   c6_amended_cardinalities.2.2 perPatternOpts patIng (distinctPatterns patIng)
     (okList (convertPerPattern perPatternOpts patIng (distinctPatterns patIng)))
     (List.Perm.refl (distinctPatterns patIng)) (by decide)⟩

/-! ## Claim C4: rule deduplication -/

/-- The number of rules the seen-set loop emits: one per key not already
seen at its first occurrence. -/
def dedupCount : List String → List String → Nat
  | [], _ => 0
  | k :: ks, seen =>
      if k ∈ seen then dedupCount ks seen
      else dedupCount ks (k :: seen) + 1

/-- When every path entry has a service backend, the synthesis loop
succeeds and emits exactly one rule per first-seen string key. -/
theorem convertHTTPRulesGo_ok_length (ing : Ingress) :
    ∀ (paths : List HTTPIngressPath) (seen : List String),
      (∀ p ∈ paths, p.backend.service.isSome = true) →
      ∃ l, convertHTTPRulesGo ing paths seen = GoResult.ok l
        ∧ l.length = dedupCount (paths.map goKey) seen := by
  intro paths
  induction paths with
  | nil => intro seen _; exact ⟨[], rfl, rfl⟩
  | cons p rest ih =>
      intro seen hsvc
      obtain ⟨sb, hsb⟩ := Option.isSome_iff_exists.mp (hsvc p (by simp))
      have hkey : goKey p = p.path ++ ":" ++ sb.name := by simp [goKey, hsb]
      simp only [convertHTTPRulesGo, hsb]
      by_cases hmem : (p.path ++ ":" ++ sb.name) ∈ seen
      · rw [if_pos hmem]
        obtain ⟨l, hl, hlen⟩ :=
          ih seen (fun q hq => hsvc q (List.mem_cons_of_mem _ hq))
        refine ⟨l, hl, ?_⟩
        rw [hlen, List.map_cons]
        simp [dedupCount, hkey, hmem]
      · rw [if_neg hmem]
        obtain ⟨l, hl, hlen⟩ :=
          ih ((p.path ++ ":" ++ sb.name) :: seen)
            (fun q hq => hsvc q (List.mem_cons_of_mem _ hq))
        rw [hl]
        refine ⟨ruleForPath ing.anns p sb :: l, rfl, ?_⟩
        rw [List.map_cons]
        simp [dedupCount, hkey, hmem, hlen]

/-- A key already in the seen set contributes nothing, however many times
it is repeated. -/
theorem dedupCount_replicate_mem :
    ∀ (m : Nat) (k : String) (ks seen : List String), k ∈ seen →
      dedupCount (List.replicate m k ++ ks) seen = dedupCount ks seen := by
  intro m
  induction m with
  | zero => intro k ks seen _; rfl
  | succ m ih =>
      intro k ks seen h
      simp only [List.replicate_succ, List.cons_append, dedupCount, if_pos h]
      exact ih k ks seen h

/-- For pairwise-distinct keys none of which was seen, each block of `m ≥ 1`
repetitions contributes exactly one rule. -/
theorem dedupCount_bind_replicate :
    ∀ (ks seen : List String) (m : Nat), 1 ≤ m → ks.Nodup →
      (∀ k ∈ ks, k ∉ seen) →
      dedupCount (ks.flatMap fun k => List.replicate m k) seen = ks.length := by
  intro ks
  induction ks with
  | nil => intro seen m _ _ _; rfl
  | cons k rest ih =>
      intro seen m hm hnodup hdisj
      obtain ⟨m', rfl⟩ : ∃ m', m = m' + 1 := ⟨m - 1, by omega⟩
      have hk : k ∉ seen := hdisj k (by simp)
      have hdisj' : ∀ k' ∈ rest, k' ∉ k :: seen := by
        intro k' hk'
        simp only [List.mem_cons]
        push_neg
        exact ⟨fun he => absurd (he ▸ hk') (List.nodup_cons.mp hnodup).1,
               hdisj k' (List.mem_cons_of_mem _ hk')⟩
      have hstep : ((k :: rest).flatMap fun x => List.replicate (m' + 1) x)
          = k :: (List.replicate m' k ++ rest.flatMap fun x => List.replicate (m' + 1) x) := by
        rw [List.flatMap_cons, List.replicate_succ, List.cons_append]
      rw [hstep, dedupCount, if_neg hk,
          dedupCount_replicate_mem m' k _ (k :: seen) (List.mem_cons_self k seen),
          ih (k :: seen) (m' + 1) (by omega) (List.nodup_cons.mp hnodup).2 hdisj']
      simp

/-- Mapping the dedup key over a block-replicated path list replicates the
keys blockwise. -/
theorem map_goKey_bind_replicate (kd : List HTTPIngressPath) (m : Nat) :
    (kd.flatMap fun p => List.replicate m p).map goKey
      = (kd.map goKey).flatMap fun k => List.replicate m k := by
  induction kd with
  | nil => rfl
  | cons p rest ih =>
      simp only [List.flatMap_cons, List.map_append, List.map_cons, List.map_replicate, ih]

/-- C4 counterexample: the dedup key is the STRING `path + ":" + service`,
not the pair — the two entries have distinct (path, service) pairs
(k = 2, m = 1), yet only ONE rule is synthesized because `"/a:b" + ":" +
"c"` and `"/a" + ":" + "b:c"` collide. -/
theorem c4_counterexample_key_collision :
    specPairKey collidePathA ≠ specPairKey collidePathB
    ∧ firstDedup [specPairKey collidePathA, specPairKey collidePathB]
        = [specPairKey collidePathA, specPairKey collidePathB]
    ∧ okLength (convertHTTPRules goodIng [collidePathA, collidePathB]) = 1 := by
  refine ⟨by decide, by decide, by decide⟩

/-- C4 amended: deduplication is by the concatenated string key
`path + ":" + serviceName`, first occurrence kept in path-list order;
for a path list of `k` entries with pairwise-distinct STRING keys, each
repeated `m ≥ 1` times, the synthesized rule count is exactly `k`
(provided every entry carries a service backend, without which the
synthesis panics). -/
theorem c4_amended_dedup_by_string_key (ing : Ingress) (kd : List HTTPIngressPath)
    (m : Nat) (hm : 1 ≤ m)
    (hsvc : ∀ p ∈ kd, p.backend.service.isSome = true)
    (hnodup : (kd.map goKey).Nodup) :
    (convertHTTPRules ing (kd.flatMap fun p => List.replicate m p)).isOk = true
    ∧ okLength (convertHTTPRules ing (kd.flatMap fun p => List.replicate m p))
        = kd.length := by
  have hsvc' : ∀ q ∈ kd.flatMap fun p => List.replicate m p,
      q.backend.service.isSome = true := by
    intro q hq
    obtain ⟨p, hp, hqrep⟩ := List.mem_flatMap.mp hq
    rw [List.eq_of_mem_replicate hqrep]
    exact hsvc p hp
  obtain ⟨l, hlg, hlen⟩ :=
    convertHTTPRulesGo_ok_length ing (kd.flatMap fun p => List.replicate m p) [] hsvc'
  have hl : convertHTTPRules ing (kd.flatMap fun p => List.replicate m p)
      = GoResult.ok l := hlg
  constructor
  · rw [hl]; rfl
  · rw [hl]
    simp only [okLength]
    rw [hlen, map_goKey_bind_replicate,
        dedupCount_bind_replicate (kd.map goKey) [] m hm hnodup (by simp)]
    simp

/-- C4 amended witness: two paths with distinct string keys, each repeated
twice, synthesize exactly two rules. -/
theorem c4_amended_witness :
    1 ≤ 2
    ∧ (∀ p ∈ [mkPath "/" "a", mkPath "/b" "a"], p.backend.service.isSome = true)
    ∧ (([mkPath "/" "a", mkPath "/b" "a"].map goKey)).Nodup
    ∧ okLength (convertHTTPRules goodIng
        ([mkPath "/" "a", mkPath "/b" "a"].flatMap fun p => List.replicate 2 p)) = 2 :=
  ⟨by decide, by decide, by decide,
   (c4_amended_dedup_by_string_key goodIng [mkPath "/" "a", mkPath "/b" "a"] 2
      (by decide) (by decide) (by decide)).2⟩

/-! ## Claim C3: determinism across calls -/

/-- C3 counterexample: per-pattern output depends on the map iteration
order — the two orders below are both permutations of the key set of the
host-pattern map of `patIng`, yet they produce structurally DIFFERENT
outputs (the target resources appear in a different order), so two calls
to Convert in per-pattern mode need not return identical results. -/
theorem c3_counterexample_per_pattern_order :
    (["x.com", "y.org"] : List String).Perm (distinctPatterns patIng)
    ∧ (["y.org", "x.com"] : List String).Perm (distinctPatterns patIng)
    ∧ convertPerPattern perPatternOpts patIng ["x.com", "y.org"]
        ≠ convertPerPattern perPatternOpts patIng ["y.org", "x.com"] := by
  refine ⟨by decide, by decide, by decide⟩

/-- C3 amended: single and per-host modes are pure functions of the input
(no map iteration reaches the output), and per-pattern mode is
deterministic only UP TO the order of the produced target resources: for
any two map iteration orders the outputs are permutations of each other
(or the identical failure), but their resource order can differ between
calls. -/
theorem c3_amended_per_pattern_order_invariance (opts : Options) (ing : Ingress)
    (o1 o2 : List String) (h1 : o1.Perm (distinctPatterns ing))
    (h2 : o2.Perm (distinctPatterns ing)) :
    (∃ l1 l2, convertPerPattern opts ing o1 = GoResult.ok l1
        ∧ convertPerPattern opts ing o2 = GoResult.ok l2 ∧ l1.Perm l2)
    ∨ convertPerPattern opts ing o1 = convertPerPattern opts ing o2 := by
  cases hres : rulesForFirst ing with
  | ok rl =>
      left
      exact ⟨_, _, convertPerPatternGo_ok opts ing rl hres o1,
             convertPerPatternGo_ok opts ing rl hres o2,
             (h1.trans h2.symm).map (mkPatternRoute opts ing rl)⟩
  | err e =>
      right
      cases o1 with
      | nil =>
          have hdp : distinctPatterns ing = [] := h1.symm.eq_nil
          have ho2 : o2 = [] := by
            rw [hdp] at h2
            exact h2.eq_nil
          rw [ho2]
      | cons p rest =>
          cases o2 with
          | nil =>
              have hdp : distinctPatterns ing = [] := h2.symm.eq_nil
              rw [hdp] at h1
              exact absurd h1.eq_nil (by simp)
          | cons q rest2 =>
              rw [convertPerPattern, convertPerPattern,
                  convertPerPatternGo_err opts ing e hres p rest,
                  convertPerPatternGo_err opts ing e hres q rest2]
  | panic m =>
      right
      cases o1 with
      | nil =>
          have hdp : distinctPatterns ing = [] := h1.symm.eq_nil
          have ho2 : o2 = [] := by
            rw [hdp] at h2
            exact h2.eq_nil
          rw [ho2]
      | cons p rest =>
          cases o2 with
          | nil =>
              have hdp : distinctPatterns ing = [] := h2.symm.eq_nil
              rw [hdp] at h1
              exact absurd h1.eq_nil (by simp)
          | cons q rest2 =>
              rw [convertPerPattern, convertPerPattern,
                  convertPerPatternGo_panic opts ing m hres p rest,
                  convertPerPatternGo_panic opts ing m hres q rest2]

/-- C3 amended witness: the two orders of the counterexample instantiate
the permutation invariance. -/
theorem c3_amended_witness :
    (["x.com", "y.org"] : List String).Perm (distinctPatterns patIng)
    ∧ (["y.org", "x.com"] : List String).Perm (distinctPatterns patIng)
    ∧ ((∃ l1 l2, convertPerPattern perPatternOpts patIng ["x.com", "y.org"] = GoResult.ok l1
          ∧ convertPerPattern perPatternOpts patIng ["y.org", "x.com"] = GoResult.ok l2
          ∧ l1.Perm l2)
       ∨ convertPerPattern perPatternOpts patIng ["x.com", "y.org"]
           = convertPerPattern perPatternOpts patIng ["y.org", "x.com"]) :=
  ⟨by decide, by decide,
   c3_amended_per_pattern_order_invariance perPatternOpts patIng
     ["x.com", "y.org"] ["y.org", "x.com"] (by decide) (by decide)⟩
